import Mathlib

/-!
Verification development for the `rss_article_fetcher` repository.

Shallow embedding of the three core subsystems:
* the size-constrained batch packer (`src/wecom_pusher.py`, `WeComPusher`),
* the persistent deduplication store (`src/storage.py`, `Storage`),
* the quota-aware rate limiter (`src/summarizer.py`, `RateLimiter`)
  and the batch summarizer (`Summarizer.summarize_articles`).

Strings are modelled as Lean `String`s, timestamps as integers ("time units"),
and the external world (SQLite connection health, the generative API) as
explicit parameters.  Python exceptions in the embedded code are modelled with
`Except`; a public method that catches all exceptions is a total Lean function
that pattern-matches on the inner `Except` value.
-/

set_option maxHeartbeats 1000000
set_option maxRecDepth 8000

/-- Article data model, from `src/rss_fetcher.py` (`@dataclass class Article`).
`published` is a `datetime` in the source; it is modelled as an integer instant,
with `none` standing for a missing (`None`-like) value as guarded by
`if article.published` in `storage.py`. -/
structure Article where
  title : String
  link : String
  published : Option Int
  description : String := ""
  source : String := ""
  source_url : String := ""
  content : String := ""
  summary : String := ""
  summary_zh : String := ""
  title_zh : String := ""
deriving Repr, DecidableEq

namespace WeComPusher

/-- Constant `WeComPusher.MAX_CONTENT_LENGTH`: Enterprise WeChat markdown message character limit. -/
def MAX_CONTENT_LENGTH : Nat := 4096

/-- Constant `WeComPusher.HEADER_RESERVE`: reserved space for the message header. -/
def HEADER_RESERVE : Nat := 150

/-- Constant `WeComPusher.MAX_SUMMARY_LENGTH`: maximum summary length per article. -/
def MAX_SUMMARY_LENGTH : Nat := 300

/-- Model of `WeComPusher._estimate_article_length`: estimated formatted character length
of a single article.  Python's `getattr(article, 'summary_zh', '') or
getattr(article, 'summary', '')` selects `summary_zh` unless it is empty. -/
def estimate_article_length (article : Article) : Nat :=
  let length := article.title.length + 20
  let length := length + article.source.length + 20
  let length := length + article.link.length * 2 + 20
  let summary_text := if article.summary_zh ≠ "" then article.summary_zh else article.summary
  let length :=
    if summary_text ≠ "" then length + min summary_text.length MAX_SUMMARY_LENGTH + 30
    else length
  length + 10

/-- The loop of `WeComPusher._create_batches`, with the size estimator, the
transport ceiling and the header reserve abstracted as in the specification's
`create_batches(items, size_estimator, max_size, header_reserve)` interface.
`cur` and `curLen` are the Python locals `current_batch` and `current_length`;
the returned list is `batches` (with the final non-empty batch appended). -/
def create_batches_loop (est : Article → Nat) (maxSize headerReserve : Nat) :
    List Article → List Article → Nat → List (List Article)
  | [], cur, _ => if cur = [] then [] else [cur]
  | a :: rest, cur, curLen =>
    let l := est a
    if cur ≠ [] ∧ curLen + l > maxSize then
      cur :: create_batches_loop est maxSize headerReserve rest [a] (headerReserve + l)
    else
      create_batches_loop est maxSize headerReserve rest (cur ++ [a]) (curLen + l)

/-- Model of `WeComPusher._create_batches`: split articles into batches that fit within
the WeChat message size limit, with `current_batch = []` and
`current_length = HEADER_RESERVE` initially. -/
def create_batches (articles : List Article) : List (List Article) :=
  create_batches_loop estimate_article_length MAX_CONTENT_LENGTH HEADER_RESERVE
    articles [] HEADER_RESERVE

/-- Estimated total length of a batch: fixed header overhead plus the sum of
the articles' estimated lengths. -/
def batch_estimate (est : Article → Nat) (headerReserve : Nat) (b : List Article) : Nat :=
  headerReserve + (b.map est).sum

theorem create_batches_loop_join (est : Article → Nat) (maxSize headerReserve : Nat) :
    ∀ (arts cur : List Article) (curLen : Nat),
      (create_batches_loop est maxSize headerReserve arts cur curLen).flatten = cur ++ arts
  | [], cur, curLen => by
    by_cases h : cur = [] <;> simp [create_batches_loop, h]
  | a :: rest, cur, curLen => by
    simp only [create_batches_loop]
    by_cases h : cur ≠ [] ∧ curLen + est a > maxSize
    · simp only [if_pos h, List.flatten_cons]
      rw [create_batches_loop_join est maxSize headerReserve rest [a] (headerReserve + est a)]
      simp
    · simp only [if_neg h]
      rw [create_batches_loop_join est maxSize headerReserve rest (cur ++ [a]) (curLen + est a)]
      simp

theorem create_batches_loop_ne_nil (est : Article → Nat) (maxSize headerReserve : Nat) :
    ∀ (arts cur : List Article) (curLen : Nat) (b : List Article),
      b ∈ create_batches_loop est maxSize headerReserve arts cur curLen → b ≠ []
  | [], cur, curLen, b => by
    by_cases h : cur = [] <;> simp [create_batches_loop, h]
    rintro rfl; exact h
  | a :: rest, cur, curLen, b => by
    simp only [create_batches_loop]
    by_cases h : cur ≠ [] ∧ curLen + est a > maxSize
    · simp only [if_pos h, List.mem_cons]
      rintro (rfl | hb)
      · exact h.1
      · exact create_batches_loop_ne_nil est maxSize headerReserve rest [a] _ b hb
    · simp only [if_neg h]
      exact create_batches_loop_ne_nil est maxSize headerReserve rest (cur ++ [a]) _ b

theorem create_batches_loop_bounded (est : Article → Nat) (maxSize headerReserve : Nat) :
    ∀ (arts cur : List Article) (curLen : Nat),
      curLen = batch_estimate est headerReserve cur →
      (2 ≤ cur.length → curLen ≤ maxSize) →
      ∀ b ∈ create_batches_loop est maxSize headerReserve arts cur curLen,
        2 ≤ b.length → batch_estimate est headerReserve b ≤ maxSize
  | [], cur, curLen => by
    intro hlen hinv b hb h2
    by_cases h : cur = [] <;> simp [create_batches_loop, h] at hb
    subst hb; have := hinv h2; omega
  | a :: rest, cur, curLen => by
    intro hlen hinv b hb h2
    simp only [create_batches_loop] at hb
    by_cases h : cur ≠ [] ∧ curLen + est a > maxSize
    · simp only [if_pos h, List.mem_cons] at hb
      rcases hb with rfl | hb
      · have := hinv h2; omega
      · refine create_batches_loop_bounded est maxSize headerReserve rest [a] _ ?_ ?_ b hb h2
        · simp [batch_estimate]
        · intro habs; simp at habs
    · simp only [if_neg h] at hb
      refine create_batches_loop_bounded est maxSize headerReserve rest (cur ++ [a]) _ ?_ ?_ b hb h2
      · simp [batch_estimate] at hlen ⊢; omega
      · intro h2'
        by_cases hc : cur = []
        · subst hc; simp at h2'
        · push_neg at h
          have := h hc
          omega

theorem create_batches_loop_result_ne_nil (est : Article → Nat) (maxSize headerReserve : Nat) :
    ∀ (arts cur : List Article) (curLen : Nat), cur ≠ [] →
      create_batches_loop est maxSize headerReserve arts cur curLen ≠ []
  | [], cur, curLen => by
    intro hcur
    simp [create_batches_loop, hcur]
  | a :: rest, cur, curLen => by
    intro hcur
    simp only [create_batches_loop]
    by_cases h : cur ≠ [] ∧ curLen + est a > maxSize
    · simp [if_pos h]
    · simp only [if_neg h]
      exact create_batches_loop_result_ne_nil est maxSize headerReserve rest (cur ++ [a]) _
        (by simp)

theorem create_batches_loop_uniform (est : Article → Nat) :
    ∀ (arts cur : List Article) (curLen : Nat),
      (∀ x ∈ arts, est x = 400) →
      curLen = 150 + 400 * cur.length →
      cur.length ≤ 9 →
      (∀ b ∈ (create_batches_loop est 4096 150 arts cur curLen).dropLast, b.length = 9) ∧
      (∀ b ∈ create_batches_loop est 4096 150 arts cur curLen, b.length ≤ 9)
  | [], cur, curLen => by
    intro _ _ hle
    constructor
    · intro b hb
      by_cases h : cur = [] <;> simp [create_batches_loop, h, List.dropLast_single] at hb
    · intro b hb
      by_cases h : cur = [] <;> simp [create_batches_loop, h] at hb
      subst hb; exact hle
  | a :: rest, cur, curLen => by
    intro hest hlen hle
    have ha : est a = 400 := hest a (by simp)
    have hrest : ∀ x ∈ rest, est x = 400 := fun x hx => hest x (by simp [hx])
    simp only [create_batches_loop, ha]
    by_cases h : cur ≠ [] ∧ curLen + 400 > 4096
    · rw [if_pos h]
      have hk : cur.length = 9 := by have := h.2; omega
      have ih := create_batches_loop_uniform est rest [a] (150 + 400)
        hrest (by simp) (by simp)
      have hne := create_batches_loop_result_ne_nil est 4096 150 rest [a] (150 + 400)
        (by simp)
      constructor
      · intro b hb
        rw [List.dropLast_cons_of_ne_nil hne] at hb
        rcases List.mem_cons.mp hb with rfl | hb
        · exact hk
        · exact ih.1 b hb
      · intro b hb
        rcases List.mem_cons.mp hb with rfl | hb
        · omega
        · exact ih.2 b hb
    · rw [if_neg h]
      have hk : cur.length ≤ 8 := by
        by_cases hc : cur = []
        · subst hc; simp
        · push_neg at h; have := h hc; omega
      have ih := create_batches_loop_uniform est rest (cur ++ [a]) (curLen + 400)
        hrest (by simp; omega) (by simp; omega)
      exact ih

/-- C1: For every input sequence of articles, with the code's size
estimator: every batch returned by `WeComPusher._create_batches` is non-empty;
every batch with two or more articles has header reserve plus the sum of its
articles' estimates at most the transport ceiling; any batch whose estimated
total exceeds the ceiling is a singleton whose single article's own estimate
exceeds the ceiling minus the header reserve; and no input article is omitted
from the output. -/
theorem wecom_create_batches_invariant (articles : List Article) :
    (∀ b ∈ create_batches articles,
        b ≠ [] ∧
        (2 ≤ b.length →
          batch_estimate estimate_article_length HEADER_RESERVE b ≤ MAX_CONTENT_LENGTH) ∧
        (MAX_CONTENT_LENGTH < batch_estimate estimate_article_length HEADER_RESERVE b →
          ∃ a, b = [a] ∧
            MAX_CONTENT_LENGTH - HEADER_RESERVE < estimate_article_length a)) ∧
    (∀ a ∈ articles, ∃ b ∈ create_batches articles, a ∈ b) :=
  by
  have hflat := create_batches_loop_join estimate_article_length MAX_CONTENT_LENGTH
    HEADER_RESERVE articles [] HEADER_RESERVE
  constructor
  · intro b hb
    have hne : b ≠ [] := create_batches_loop_ne_nil _ _ _ articles [] _ b hb
    have hbound : 2 ≤ b.length →
        batch_estimate estimate_article_length HEADER_RESERVE b ≤ MAX_CONTENT_LENGTH := by
      refine create_batches_loop_bounded _ _ _ articles [] HEADER_RESERVE ?_ ?_ b hb
      · simp [batch_estimate]
      · intro habs; simp at habs
    refine ⟨hne, hbound, ?_⟩
    intro hover
    have hlen1 : b.length = 1 := by
      have hge1 : 1 ≤ b.length := List.length_pos.mpr hne
      by_contra hne1
      have h2 : 2 ≤ b.length := by omega
      have := hbound h2
      omega
    obtain ⟨a, rfl⟩ : ∃ a, b = [a] := by
      cases b with
      | nil => simp at hlen1
      | cons x xs =>
        cases xs with
        | nil => exact ⟨x, rfl⟩
        | cons y ys => simp at hlen1
    refine ⟨a, rfl, ?_⟩
    simp only [batch_estimate, List.map_cons, List.map_nil, List.sum_cons,
      List.sum_nil, MAX_CONTENT_LENGTH, HEADER_RESERVE] at hover ⊢
    omega
  · intro a ha
    have : a ∈ (create_batches articles).flatten := by
      rw [show (create_batches articles).flatten = articles from hflat]
      exact ha
    exact List.mem_flatten.mp this

/-- A minimal concrete article used to instantiate the packer theorems. -/
def smallArticle : Article :=
  { title := "t", link := "l", published := none }

theorem wecom_create_batches_invariant_witness :
    ([smallArticle] : List Article) ≠ [] ∧
    (2 ≤ ([smallArticle] : List Article).length →
      batch_estimate estimate_article_length HEADER_RESERVE [smallArticle] ≤
        MAX_CONTENT_LENGTH) ∧
    (MAX_CONTENT_LENGTH <
        batch_estimate estimate_article_length HEADER_RESERVE [smallArticle] →
      ∃ a, ([smallArticle] : List Article) = [a] ∧
        MAX_CONTENT_LENGTH - HEADER_RESERVE < estimate_article_length a) :=
  (wecom_create_batches_invariant [smallArticle]).1 [smallArticle] (by decide)

/-- C2: For every input list of articles, the concatenation of the batches
returned by `WeComPusher._create_batches` equals the input list; and when
every article's estimate is 400 with header reserve 150 and ceiling 4096,
every batch except possibly the last contains exactly 9 articles and no
batch's estimated total exceeds 4096. -/
theorem wecom_create_batches_partition (articles : List Article) :
    (create_batches articles).flatten = articles ∧
    ((∀ a ∈ articles, estimate_article_length a = 400) →
      (∀ b ∈ (create_batches articles).dropLast, b.length = 9) ∧
      (∀ b ∈ create_batches articles,
        batch_estimate estimate_article_length HEADER_RESERVE b ≤ MAX_CONTENT_LENGTH)) :=
  by
  have hflat : (create_batches articles).flatten = articles := by
    simpa using create_batches_loop_join estimate_article_length MAX_CONTENT_LENGTH
      HEADER_RESERVE articles [] HEADER_RESERVE
  refine ⟨hflat, ?_⟩
  intro h400
  have hcb : create_batches articles =
      create_batches_loop estimate_article_length 4096 150 articles [] 150 := rfl
  have huni := create_batches_loop_uniform estimate_article_length articles [] 150
    h400 (by simp) (by simp)
  rw [hcb]
  refine ⟨huni.1, ?_⟩
  intro b hb
  have hmem : ∀ x ∈ b, x ∈ articles := by
    intro x hx
    have hxf : x ∈ (create_batches articles).flatten :=
      List.mem_flatten.mpr ⟨b, by rw [hcb]; exact hb, hx⟩
    rwa [hflat] at hxf
  have hsum : (b.map estimate_article_length).sum = b.length * 400 := by
    have hall : ∀ y ∈ b.map estimate_article_length, y = 400 := by
      intro y hy
      rcases List.mem_map.mp hy with ⟨x, hx, rfl⟩
      exact h400 x (hmem x hx)
    have := List.sum_eq_card_nsmul (b.map estimate_article_length) 400 hall
    simpa [List.length_map] using this
  have hlen9 : b.length ≤ 9 := huni.2 b hb
  simp only [batch_estimate, hsum, MAX_CONTENT_LENGTH, HEADER_RESERVE]
  omega

/-- A concrete article whose estimated length is exactly 400 size units:
the link contributes twice, so a 165-character link gives
20 + 20 + 330 + 20 + 10 = 400. -/
def article400 : Article :=
  { title := "", link := String.mk (List.replicate 165 'x'), published := none }

/-- Ten articles of estimated length 400. -/
def tenArticles : List Article := List.replicate 10 article400

theorem wecom_create_batches_partition_witness :
    (create_batches tenArticles).flatten = tenArticles ∧
    (∀ b ∈ (create_batches tenArticles).dropLast, b.length = 9) ∧
    (∀ b ∈ create_batches tenArticles,
      batch_estimate estimate_article_length HEADER_RESERVE b ≤ MAX_CONTENT_LENGTH) := by
  have h := wecom_create_batches_partition tenArticles
  have h400 : ∀ a ∈ tenArticles, estimate_article_length a = 400 := by decide
  exact ⟨h.1, (h.2 h400).1, (h.2 h400).2⟩

end WeComPusher

namespace Storage

/-- Row of the `articles` table created by `Storage._init_database`
(`id`/AUTOINCREMENT omitted; it carries no behaviour used by the claims).
`processed_at` models the `CURRENT_TIMESTAMP` default. -/
structure Row where
  url : String
  url_hash : String
  title : String
  title_zh : String
  source : String
  source_url : String
  description : String
  content : String
  summary : String
  summary_zh : String
  processed_at : Int
  published_at : Option Int
deriving Repr, DecidableEq

/-- Error raised by a failing persistence layer (`sqlite3` exceptions). -/
inductive DbError
  | ioError
deriving Repr, DecidableEq

/-- State of a `Storage` object: the SQLite `articles` table (ordered list of
rows), the in-memory cache `processed_urls`, and a health flag for the
persistence layer — `dbOk = false` models a database on which every SQL
operation raises. The cache list is used with set semantics, like the Python
`set`. -/
structure StorageState where
  dbOk : Bool
  table : List Row
  processed_urls : List String
deriving Repr, DecidableEq

/-- Model of `INSERT OR IGNORE INTO articles`: SQLite skips the insert when
the new row violates the UNIQUE constraint on `url` or on `url_hash`. -/
def insert_or_ignore (table : List Row) (r : Row) : List Row :=
  if table.any (fun q => q.url == r.url || q.url_hash == r.url_hash) then table
  else table ++ [r]

/-- Row written by the INSERT of `Storage.mark_as_processed`; the `getattr`
fallbacks in the source resolve to the article's fields, which default to the
empty string in the `Article` dataclass. `now` is the `CURRENT_TIMESTAMP`
filled in for `processed_at`. -/
def row_of_article (hashUrl : String → String) (now : Int) (a : Article) : Row :=
  { url := a.link, url_hash := hashUrl a.link, title := a.title, title_zh := a.title_zh,
    source := a.source, source_url := a.source_url, description := a.description,
    content := a.content, summary := a.summary, summary_zh := a.summary_zh,
    processed_at := now, published_at := a.published }

/-- Body of the `try` block of `Storage.mark_as_processed` (connect, INSERT OR
IGNORE, commit): raises iff the persistence layer is failing. -/
def try_insert (st : StorageState) (r : Row) : Except DbError (List Row) :=
  if st.dbOk then Except.ok (insert_or_ignore st.table r) else Except.error DbError.ioError

/-- Model of `Storage.mark_as_processed`: on success the table is updated and
the URL hash is added to the cache and `True` is returned; any exception is
caught and `False` is returned (the cache update is after the DB calls, so a
failing call leaves the cache untouched). `hashUrl` models
`Storage._hash_url` (`hashlib.sha256(url).hexdigest()`), of which only
determinism is relevant. -/
def mark_as_processed (hashUrl : String → String) (now : Int)
    (st : StorageState) (a : Article) : Bool × StorageState :=
  match try_insert st (row_of_article hashUrl now a) with
  | Except.ok table1 =>
      (true,
        { st with
            table := table1
            processed_urls := st.processed_urls.insert (hashUrl a.link) })
  | Except.error _ => (false, st)

/-- Model of `Storage.is_processed`: membership of the URL hash in the
in-memory cache (no database access). -/
def is_processed (hashUrl : String → String) (st : StorageState) (url : String) : Bool :=
  decide (hashUrl url ∈ st.processed_urls)

/-- Model of `Storage._load_processed_urls`: reload the cache from the table;
on a persistence failure the exception is caught and the cache becomes empty. -/
def load_processed_urls (st : StorageState) : StorageState :=
  if st.dbOk then { st with processed_urls := st.table.map Row.url_hash }
  else { st with processed_urls := [] }

/-- Storage construction (`Storage.__init__`): start with an empty cache and
hydrate it via `_load_processed_urls` from the existing table. (On a failing
persistence layer `_init_database` itself re-raises; the claims below are
about the store's operations after construction.) -/
def storage_init (dbOk : Bool) (table : List Row) : StorageState :=
  load_processed_urls { dbOk := dbOk, table := table, processed_urls := [] }

/-- Model of `Storage.filter_unprocessed`: with `force` return the input
unchanged, otherwise keep exactly the articles whose link is not processed,
in input order. -/
def filter_unprocessed (hashUrl : String → String) (st : StorageState)
    (articles : List Article) (force : Bool) : List Article :=
  if force then articles
  else articles.filter (fun a => !(is_processed hashUrl st a.link))

/-- Body of the `try` block of `Storage.get_articles_by_time_range`: rows with
a non-NULL `published_at` inside `[startT, endT]` (SQL comparisons with NULL
are not satisfied), ordered by `published_at` descending. -/
def try_query (st : StorageState) (startT endT : Int) : Except DbError (List Row) :=
  if st.dbOk then
    Except.ok (((st.table.filter (fun r =>
        match r.published_at with
        | some t => decide (startT ≤ t) && decide (t ≤ endT)
        | none => false)).mergeSort
      (fun r q => decide (q.published_at.getD 0 ≤ r.published_at.getD 0))))
  else Except.error DbError.ioError

/-- Article rebuilt from a row by `Storage.get_articles_by_time_range`;
a NULL `published_at` falls back to the current instant. -/
def article_of_row (now : Int) (r : Row) : Article :=
  { title := r.title, link := r.url, published := some (r.published_at.getD now),
    description := r.description, source := r.source, source_url := r.source_url,
    content := r.content, summary := r.summary, summary_zh := r.summary_zh,
    title_zh := r.title_zh }

/-- Model of `Storage.get_articles_by_time_range`: on any exception the
accumulated (still empty) list is returned. -/
def get_articles_by_time_range (st : StorageState) (startT endT now : Int) : List Article :=
  match try_query st startT endT with
  | Except.ok rows => rows.map (article_of_row now)
  | Except.error _ => []

/-- Body of the `try` block of `Storage.cleanup_old_records`: DELETE the rows
whose `processed_at` is older than the cutoff, reporting the kept table and
the number of deleted rows (`cursor.rowcount`). -/
def try_cleanup (st : StorageState) (cutoff : Int) : Except DbError (List Row × Nat) :=
  if st.dbOk then
    let kept := st.table.filter (fun r => !(decide (r.processed_at < cutoff)))
    Except.ok (kept, st.table.length - kept.length)
  else Except.error DbError.ioError

/-- Model of `Storage.cleanup_old_records`: on success the cache is reloaded
from the new table; any exception is caught and `0` is returned. -/
def cleanup_old_records (st : StorageState) (cutoff : Int) : Nat × StorageState :=
  match try_cleanup st cutoff with
  | Except.ok (kept, deleted) => (deleted, load_processed_urls { st with table := kept })
  | Except.error _ => (0, st)

/-- Model of `Storage.reset_database`: delete all rows and clear the cache;
any exception is caught and `False` is returned. -/
def reset_database (st : StorageState) : Bool × StorageState :=
  if st.dbOk then (true, { st with table := [], processed_urls := [] })
  else (false, st)

end Storage

namespace Storage

/-- Cache-consistency invariant: the in-memory cache holds exactly the
`url_hash` values present in the table. -/
def cache_consistent (st : StorageState) : Prop :=
  ∀ h, h ∈ st.processed_urls ↔ ∃ r ∈ st.table, r.url_hash = h

/-- Well-formedness of the table: every row's `url_hash` is the hash of its
`url`, as established by `mark_as_processed` for every row it inserts. -/
def hashes_well_formed (hashUrl : String → String) (st : StorageState) : Prop :=
  ∀ r ∈ st.table, r.url_hash = hashUrl r.url

/-- C3: Record insertion is idempotent: starting from a state not containing
the article's URL or URL hash, calling `mark_as_processed` twice with the same
article returns `True` both times, leaves exactly one row with that URL hash,
and the second call does not change the table written by the first call
(no overwrite of the first call's row). -/
theorem mark_as_processed_idempotent (hashUrl : String → String) (now1 now2 : Int)
    (st : StorageState) (a : Article)
    (hok : st.dbOk = true)
    (hfresh : ∀ r ∈ st.table, r.url ≠ a.link ∧ r.url_hash ≠ hashUrl a.link) :
    (mark_as_processed hashUrl now1 st a).1 = true ∧
    (mark_as_processed hashUrl now2 (mark_as_processed hashUrl now1 st a).2 a).1 = true ∧
    ((mark_as_processed hashUrl now2 (mark_as_processed hashUrl now1 st a).2 a).2.table.filter
        (fun r => r.url_hash == hashUrl a.link)).length = 1 ∧
    (mark_as_processed hashUrl now1 st a).2.table =
      st.table ++ [row_of_article hashUrl now1 a] ∧
    (mark_as_processed hashUrl now2 (mark_as_processed hashUrl now1 st a).2 a).2.table =
      (mark_as_processed hashUrl now1 st a).2.table := by
  have hany : st.table.any
      (fun q => q.url == (row_of_article hashUrl now1 a).url ||
        q.url_hash == (row_of_article hashUrl now1 a).url_hash) = false := by
    rw [List.any_eq_false]
    intro q hq
    simp only [row_of_article, Bool.or_eq_true, beq_iff_eq]
    push_neg
    exact hfresh q hq
  have h1 : mark_as_processed hashUrl now1 st a =
      (true,
        { st with
            table := st.table ++ [row_of_article hashUrl now1 a]
            processed_urls := st.processed_urls.insert (hashUrl a.link) }) := by
    simp [mark_as_processed, try_insert, hok, insert_or_ignore, hany]
  have hany2 : (st.table ++ [row_of_article hashUrl now1 a]).any
      (fun q => q.url == (row_of_article hashUrl now2 a).url ||
        q.url_hash == (row_of_article hashUrl now2 a).url_hash) = true := by
    simp [List.any_append, row_of_article]
  have h2 : mark_as_processed hashUrl now2 (mark_as_processed hashUrl now1 st a).2 a =
      (true,
        { (mark_as_processed hashUrl now1 st a).2 with
            processed_urls :=
              (mark_as_processed hashUrl now1 st a).2.processed_urls.insert
                (hashUrl a.link) }) := by
    rw [h1]
    simp [mark_as_processed, try_insert, hok, insert_or_ignore, hany2]
  refine ⟨by rw [h1], by rw [h2], ?_, by rw [h1], by rw [h2]⟩
  rw [h2, h1]
  simp only [List.filter_append]
  have hfilter0 : st.table.filter (fun r => r.url_hash == hashUrl a.link) = [] := by
    simp only [List.filter_eq_nil_iff, beq_iff_eq]
    intro r hr
    exact (hfresh r hr).2
  rw [hfilter0]
  simp [row_of_article]

/-- Sample article used to instantiate the storage theorems. -/
def sampleArticle : Article :=
  { title := "title", link := "http://example.com/a", published := some 0 }

theorem mark_as_processed_idempotent_witness :
    (mark_as_processed (fun s => s) 0 (storage_init true []) sampleArticle).1 = true ∧
    (mark_as_processed (fun s => s) 1
        (mark_as_processed (fun s => s) 0 (storage_init true []) sampleArticle).2
        sampleArticle).1 = true ∧
    ((mark_as_processed (fun s => s) 1
        (mark_as_processed (fun s => s) 0 (storage_init true []) sampleArticle).2
        sampleArticle).2.table.filter
          (fun r => r.url_hash == (fun s => s) sampleArticle.link)).length = 1 := by
  have h := mark_as_processed_idempotent (fun s => s) 0 1 (storage_init true [])
    sampleArticle rfl (by intro r hr; simp [storage_init, load_processed_urls] at hr)
  exact ⟨h.1, h.2.1, h.2.2.1⟩

/-- C7: `filter_unprocessed` with `force = false` returns exactly the
subsequence of the input whose identifiers are not known, preserving input
order; after a successful `mark_as_processed` of an article the filtered
result excludes every article with that link; with `force = true` the input
is returned unchanged. -/
theorem filter_unprocessed_spec (hashUrl : String → String) (st : StorageState)
    (articles : List Article) (a : Article) (now : Int) :
    filter_unprocessed hashUrl st articles true = articles ∧
    (filter_unprocessed hashUrl st articles false).Sublist articles ∧
    (∀ x, x ∈ filter_unprocessed hashUrl st articles false ↔
      x ∈ articles ∧ is_processed hashUrl st x.link = false) ∧
    ((mark_as_processed hashUrl now st a).1 = true →
      ∀ x ∈ filter_unprocessed hashUrl (mark_as_processed hashUrl now st a).2 articles false,
        x.link ≠ a.link) := by
  refine ⟨rfl, ?_, ?_, ?_⟩
  · exact List.filter_sublist articles
  · intro x
    simp [filter_unprocessed, List.mem_filter]
  · intro hsucc x hx hlink
    have hdb : st.dbOk = true := by
      by_contra hdb
      have hdb' : st.dbOk = false := by
        cases hst : st.dbOk
        · rfl
        · exact absurd hst hdb
      simp [mark_as_processed, try_insert, hdb'] at hsucc
    have hstate : (mark_as_processed hashUrl now st a).2.processed_urls =
        st.processed_urls.insert (hashUrl a.link) := by
      simp only [mark_as_processed, try_insert, hdb, if_true]
    have hmem : hashUrl a.link ∈ (mark_as_processed hashUrl now st a).2.processed_urls := by
      rw [hstate]
      exact List.mem_insert_self _ _
    rw [show filter_unprocessed hashUrl (mark_as_processed hashUrl now st a).2 articles false =
        articles.filter
          (fun x => !(is_processed hashUrl (mark_as_processed hashUrl now st a).2 x.link))
      from rfl, List.mem_filter] at hx
    have hnot : hashUrl x.link ∉ (mark_as_processed hashUrl now st a).2.processed_urls := by
      have hb := hx.2
      simp only [is_processed, Bool.not_eq_eq_eq_not, Bool.not_true,
        decide_eq_false_iff_not] at hb
      exact hb
    exact hnot (hlink ▸ hmem)

theorem filter_unprocessed_spec_witness :
    filter_unprocessed (fun s => s) (storage_init true []) [sampleArticle] true =
      [sampleArticle] ∧
    ((mark_as_processed (fun s => s) 0 (storage_init true []) sampleArticle).1 = true →
      ∀ x ∈ filter_unprocessed (fun s => s)
          (mark_as_processed (fun s => s) 0 (storage_init true []) sampleArticle).2
          [sampleArticle] false,
        x.link ≠ sampleArticle.link) := by
  have h := filter_unprocessed_spec (fun s => s) (storage_init true [])
    [sampleArticle] sampleArticle 0
  exact ⟨h.1, h.2.2.2⟩

/-- C8: under a persistence I/O failure the store degrades gracefully and
reports failure only through return values: `mark_as_processed` returns
`False` leaving the state unchanged, `get_articles_by_time_range` returns the
empty list, a cache (re)load leaves the cache empty so `is_processed` returns
`False`, `cleanup_old_records` returns `0`, and `reset_database` returns
`False`; each operation is a total function (the embedded `try` bodies return
`Except` values that the public operations catch, never propagate). -/
theorem storage_degrades_on_failure (hashUrl : String → String)
    (now startT endT qnow cutoff : Int) (st : StorageState) (a : Article) (url : String)
    (hfail : st.dbOk = false) :
    (mark_as_processed hashUrl now st a).1 = false ∧
    (mark_as_processed hashUrl now st a).2 = st ∧
    get_articles_by_time_range st startT endT qnow = [] ∧
    is_processed hashUrl (load_processed_urls st) url = false ∧
    (cleanup_old_records st cutoff).1 = 0 ∧
    (cleanup_old_records st cutoff).2 = st ∧
    (reset_database st).1 = false := by
  simp [mark_as_processed, try_insert, hfail, get_articles_by_time_range, try_query,
    is_processed, load_processed_urls, cleanup_old_records, try_cleanup, reset_database]

theorem storage_degrades_on_failure_witness :
    (mark_as_processed (fun s => s) 0
        { dbOk := false, table := [], processed_urls := [] } sampleArticle).1 = false ∧
    get_articles_by_time_range
        { dbOk := false, table := [], processed_urls := [] } 0 10 5 = [] ∧
    is_processed (fun s => s)
        (load_processed_urls { dbOk := false, table := [], processed_urls := [] })
        sampleArticle.link = false := by
  have h := storage_degrades_on_failure (fun s => s) 0 0 10 5 0
    { dbOk := false, table := [], processed_urls := [] } sampleArticle
    sampleArticle.link rfl
  exact ⟨h.1, h.2.2.1, h.2.2.2.1⟩

/-- C10: the in-memory cache equals the set of `url_hash` values in the table
after construction, and this consistency is preserved by every successful
`mark_as_processed`, by `cleanup_old_records` on a healthy database, and by a
successful `reset_database`; consequently `is_processed url` is true exactly
when a row with the hash of `url` exists in storage. -/
theorem storage_cache_consistency (hashUrl : String → String) (now cutoff : Int)
    (st : StorageState) (a : Article) (table : List Row) (url : String)
    (hcons : cache_consistent st) (hwf : hashes_well_formed hashUrl st) :
    cache_consistent (storage_init true table) ∧
    ((mark_as_processed hashUrl now st a).1 = true →
      cache_consistent (mark_as_processed hashUrl now st a).2) ∧
    (st.dbOk = true → cache_consistent (cleanup_old_records st cutoff).2) ∧
    ((reset_database st).1 = true → cache_consistent (reset_database st).2) ∧
    (is_processed hashUrl st url = true ↔ ∃ r ∈ st.table, r.url_hash = hashUrl url) := by
  refine ⟨?_, ?_, ?_, ?_, ?_⟩
  · intro h
    simp [storage_init, load_processed_urls, List.mem_map]
  · intro hsucc
    have hdb : st.dbOk = true := by
      cases hst : st.dbOk
      · simp [mark_as_processed, try_insert, hst] at hsucc
      · rfl
    have hstate : (mark_as_processed hashUrl now st a).2 =
        { st with
            table := insert_or_ignore st.table (row_of_article hashUrl now a)
            processed_urls := st.processed_urls.insert (hashUrl a.link) } := by
      simp only [mark_as_processed, try_insert, hdb, if_true]
    rw [hstate]
    intro h
    simp only [List.mem_insert_iff]
    by_cases hc : st.table.any
        (fun q => q.url == (row_of_article hashUrl now a).url ||
          q.url_hash == (row_of_article hashUrl now a).url_hash) = true
    · have htab : insert_or_ignore st.table (row_of_article hashUrl now a) = st.table := by
        simp [insert_or_ignore, hc]
      rw [htab]
      constructor
      · rintro (rfl | hmem)
        · rcases List.any_eq_true.mp hc with ⟨q, hq, hor⟩
          simp only [row_of_article, Bool.or_eq_true, beq_iff_eq] at hor
          rcases hor with hu | hh
          · exact ⟨q, hq, by rw [hwf q hq, hu]⟩
          · exact ⟨q, hq, hh⟩
        · exact (hcons h).mp hmem
      · intro hex
        exact Or.inr ((hcons h).mpr hex)
    · have htab : insert_or_ignore st.table (row_of_article hashUrl now a) =
          st.table ++ [row_of_article hashUrl now a] := by
        simp only [insert_or_ignore]
        rw [if_neg hc]
      rw [htab]
      constructor
      · rintro (rfl | hmem)
        · exact ⟨row_of_article hashUrl now a, by simp [row_of_article]⟩
        · rcases (hcons h).mp hmem with ⟨r, hr, hrh⟩
          exact ⟨r, by simp [hr], hrh⟩
      · rintro ⟨r, hr, hrh⟩
        rcases List.mem_append.mp hr with hr | hr
        · exact Or.inr ((hcons h).mpr ⟨r, hr, hrh⟩)
        · simp only [List.mem_singleton] at hr
          subst hr
          simp only [row_of_article] at hrh
          exact Or.inl hrh.symm
  · intro hdb
    have : cleanup_old_records st cutoff =
        ((st.table.length -
            (st.table.filter (fun r => !(decide (r.processed_at < cutoff)))).length),
          load_processed_urls
            { st with
                table := st.table.filter (fun r => !(decide (r.processed_at < cutoff))) }) := by
      simp only [cleanup_old_records, try_cleanup, hdb, if_true]
    rw [this]
    intro h
    simp [load_processed_urls, hdb, List.mem_map]
  · intro hsucc
    have hdb : st.dbOk = true := by
      cases hst : st.dbOk
      · simp [reset_database, hst] at hsucc
      · rfl
    have : reset_database st = (true, { st with table := [], processed_urls := [] }) := by
      simp [reset_database, hdb]
    rw [this]
    intro h
    simp
  · rw [show is_processed hashUrl st url = decide (hashUrl url ∈ st.processed_urls) from rfl]
    rw [decide_eq_true_iff]
    exact hcons (hashUrl url)

theorem storage_cache_consistency_witness :
    cache_consistent (storage_init true []) ∧
    (is_processed (fun s => s) (storage_init true []) sampleArticle.link = true ↔
      ∃ r ∈ (storage_init true []).table, r.url_hash = (fun s => s) sampleArticle.link) := by
  have h := storage_cache_consistency (fun s => s) 0 0 (storage_init true [])
    sampleArticle [] sampleArticle.link
    (by intro x; simp [storage_init, load_processed_urls])
    (by intro r hr; simp [storage_init, load_processed_urls] at hr)
  exact ⟨h.1, h.2.2.2.2⟩

end Storage

namespace RateLimiter

/-- State of a `RateLimiter` (`src/summarizer.py`): the RPM and daily caps,
the in-memory sliding window `request_times` (instants as integers, python
`time.time()`), the in-memory `daily_count`, and the contents of the quota
file `api_quota.json` (`none` models a missing file). Calendar dates
(`YYYY-MM-DD` strings in the source, only ever compared for equality there)
are modelled as natural numbers so that "a later calendar date" is statable. -/
structure State where
  max_rpm : Nat
  max_daily : Nat
  request_times : List Int
  daily_count : Nat
  quota_file : Option (Nat × Nat)
deriving Repr, DecidableEq

/-- Model of `RateLimiter._save_quota`: rewrite the file with the current
date and the in-memory daily count. -/
def save_quota (today : Nat) (rl : State) : State :=
  { rl with quota_file := some (today, rl.daily_count) }

/-- Model of `RateLimiter._load_quota`: adopt the persisted count when the
persisted date is today, otherwise (new day, or missing file) reset the
counter to zero and persist it. -/
def load_quota (today : Nat) (rl : State) : State :=
  match rl.quota_file with
  | some (d, c) =>
      if d = today then { rl with daily_count := c }
      else save_quota today { rl with daily_count := 0 }
  | none => save_quota today { rl with daily_count := 0 }

/-- Limiter construction (`RateLimiter.__init__`): empty sliding window, then
`_load_quota`. -/
def init (max_rpm max_daily : Nat) (file : Option (Nat × Nat)) (today : Nat) : State :=
  load_quota today
    { max_rpm := max_rpm, max_daily := max_daily, request_times := [],
      daily_count := 0, quota_file := file }

/-- The sliding one-minute window: requests whose instants are within the
trailing 60 time units of `now` (`now - t < 60`). -/
def pruned_window (times : List Int) (now : Int) : List Int :=
  times.filter (fun t => decide (now - t < 60))

/-- Model of `RateLimiter.can_make_request` at instant `now`: the daily cap is
checked first; otherwise the sliding window is pruned in place (the python
method reassigns `self.request_times`) and the RPM cap is checked. Returns the
verdict together with the possibly-pruned state. -/
def can_make_request (rl : State) (now : Int) : Bool × State :=
  if rl.max_daily ≤ rl.daily_count then (false, rl)
  else
    let rt := pruned_window rl.request_times now
    let rl2 := { rl with request_times := rt }
    if rl.max_rpm ≤ rt.length then (false, rl2) else (true, rl2)

/-- Model of `RateLimiter.record_request`: append the instant to the window,
increment the daily counter, and persist it (`_save_quota` runs on every
recorded request; no date check happens here). -/
def record_request (rl : State) (now : Int) (today : Nat) : State :=
  save_quota today
    { rl with request_times := rl.request_times ++ [now],
              daily_count := rl.daily_count + 1 }

/-- Model of `RateLimiter.get_remaining_quota`: `max(0, max_daily - daily_count)`
(natural subtraction). -/
def get_remaining_quota (rl : State) : Nat :=
  rl.max_daily - rl.daily_count

/-- Sleep duration computed by `RateLimiter.wait_if_needed` when the window is
full: `60 - (now - oldest) + 1` (one extra unit of safety margin). -/
def rpm_wait_time (now oldest : Int) : Int :=
  60 - (now - oldest) + 1

/-- Model of `RateLimiter.wait_if_needed`, the `while not can_make_request()`
loop, with explicit fuel; a sleep advances the clock by the slept duration.
Returns the final state, the instant at which the loop exits, and the total
time slept. `wait_if_needed_spec` shows fuel `request_times.length + 1` always
suffices, which is the termination argument: each sleep strictly shrinks the
next pruned window. Python's `min` of the empty window (reachable only when
`max_rpm = 0`) would raise `ValueError`; that branch returns unchanged here
and is unreachable for `max_rpm ≥ 1`. -/
def wait_if_needed : Nat → State → Int → State × Int × Int
  | 0, rl, now => (rl, now, 0)
  | fuel + 1, rl, now =>
    let c := can_make_request rl now
    if c.1 then (c.2, now, 0)
    else if c.2.max_daily ≤ c.2.daily_count then (c.2, now, 0)
    else
      let rt := pruned_window c.2.request_times now
      let rl2 := { c.2 with request_times := rt }
      if rl2.max_rpm ≤ rt.length then
        match rt.min? with
        | some oldest =>
          let w := rpm_wait_time now oldest
          let r := wait_if_needed fuel rl2 (now + w)
          (r.1, r.2.1, w + r.2.2)
        | none => (rl2, now, 0)
      else wait_if_needed fuel rl2 now

theorem pruned_window_idem (times : List Int) (now : Int) :
    pruned_window (pruned_window times now) now = pruned_window times now := by
  simp [pruned_window, List.filter_filter]

end RateLimiter

namespace RateLimiter

theorem length_filter_lt_of_mem_not {α : Type} (p : α → Bool) :
    ∀ (l : List α) (x : α), x ∈ l → p x = false → (l.filter p).length < l.length
  | [], x, hx, _ => by simp at hx
  | a :: as, x, hx, hpx => by
    rcases List.mem_cons.mp hx with rfl | hx
    · simp only [List.filter_cons, hpx, Bool.false_eq_true, if_false, List.length_cons]
      have := List.length_filter_le p as
      omega
    · simp only [List.filter_cons, List.length_cons]
      by_cases hpa : p a = true
      · simp only [hpa, if_true, List.length_cons]
        have := length_filter_lt_of_mem_not p as x hx hpx
        omega
      · have hpa2 : p a = false := by
          cases h : p a
          · rfl
          · exact absurd h hpa
        simp only [hpa2, Bool.false_eq_true, if_false]
        have := length_filter_lt_of_mem_not p as x hx hpx
        omega

theorem wait_if_needed_daily (fuel : Nat) (rl : State) (now : Int)
    (h : rl.max_daily ≤ rl.daily_count) :
    wait_if_needed (fuel + 1) rl now = (rl, now, 0) := by
  simp [wait_if_needed, can_make_request, h]

theorem wait_if_needed_allowed (fuel : Nat) (rl : State) (now : Int)
    (h : (can_make_request rl now).1 = true) :
    wait_if_needed (fuel + 1) rl now = ((can_make_request rl now).2, now, 0) := by
  simp [wait_if_needed, h]

theorem can_make_request_state (rl : State) (now : Int)
    (h : ¬ rl.max_daily ≤ rl.daily_count) :
    (can_make_request rl now).2 =
      { rl with request_times := pruned_window rl.request_times now } ∧
    ((can_make_request rl now).1 = true ↔
      (pruned_window rl.request_times now).length < rl.max_rpm) := by
  by_cases hf : rl.max_rpm ≤ (pruned_window rl.request_times now).length
  · constructor
    · simp [can_make_request, h, hf]
    · simp [can_make_request, h, hf]
  · constructor
    · simp [can_make_request, h, hf]
    · simp [can_make_request, h, hf]
      omega

theorem wait_if_needed_step (fuel : Nat) (rl : State) (now oldest : Int)
    (hdaily : rl.daily_count < rl.max_daily)
    (hfull : rl.max_rpm ≤ (pruned_window rl.request_times now).length)
    (hmin : (pruned_window rl.request_times now).min? = some oldest) :
    wait_if_needed (fuel + 1) rl now =
      ((wait_if_needed fuel { rl with request_times := pruned_window rl.request_times now }
          (now + rpm_wait_time now oldest)).1,
       (wait_if_needed fuel { rl with request_times := pruned_window rl.request_times now }
          (now + rpm_wait_time now oldest)).2.1,
       rpm_wait_time now oldest +
         (wait_if_needed fuel { rl with request_times := pruned_window rl.request_times now }
            (now + rpm_wait_time now oldest)).2.2) := by
  have h1 : ¬ rl.max_daily ≤ rl.daily_count := by omega
  have hc : can_make_request rl now =
      (false, { rl with request_times := pruned_window rl.request_times now }) := by
    simp [can_make_request, h1, hfull]
  simp only [wait_if_needed, hc, Bool.false_eq_true, if_false, pruned_window_idem, hmin]
  simp [h1, hfull]

theorem pruned_after_sleep_lt (times : List Int) (now oldest : Int)
    (hmin : (pruned_window times now).min? = some oldest) :
    (pruned_window (pruned_window times now) (now + rpm_wait_time now oldest)).length <
      (pruned_window times now).length := by
  have hmem : oldest ∈ pruned_window times now :=
    List.min?_mem (fun a b => min_choice a b) hmin
  apply length_filter_lt_of_mem_not _ _ oldest hmem
  rw [decide_eq_false_iff_not, rpm_wait_time]
  omega

theorem wait_if_needed_resolves :
    ∀ (fuel : Nat) (rl : State) (now : Int),
      1 ≤ rl.max_rpm →
      (pruned_window rl.request_times now).length < fuel →
      ((can_make_request (wait_if_needed fuel rl now).1
          (wait_if_needed fuel rl now).2.1).1 = true ∨
        (wait_if_needed fuel rl now).1.max_daily ≤ (wait_if_needed fuel rl now).1.daily_count)
  | 0, rl, now => by
    intro _ h
    exact absurd h (by omega)
  | fuel + 1, rl, now => by
    intro hrpm hfuel
    by_cases hdaily : rl.max_daily ≤ rl.daily_count
    · rw [wait_if_needed_daily fuel rl now hdaily]
      exact Or.inr hdaily
    · by_cases hcan : (can_make_request rl now).1 = true
      · rw [wait_if_needed_allowed fuel rl now hcan]
        left
        have hst := (can_make_request_state rl now hdaily).1
        have hlt := ((can_make_request_state rl now hdaily).2).mp hcan
        rw [hst]
        apply ((can_make_request_state
          { rl with request_times := pruned_window rl.request_times now } now hdaily).2).mpr
        show (pruned_window (pruned_window rl.request_times now) now).length < rl.max_rpm
        rw [pruned_window_idem]
        exact hlt
      · push_neg at hdaily
        have hfull : rl.max_rpm ≤ (pruned_window rl.request_times now).length := by
          by_contra hnf
          push_neg at hnf
          exact hcan (((can_make_request_state rl now (by omega)).2).mpr hnf)
        have hne : pruned_window rl.request_times now ≠ [] := by
          intro he
          rw [he] at hfull
          simp at hfull
          omega
        obtain ⟨oldest, hmin⟩ : ∃ o, (pruned_window rl.request_times now).min? = some o := by
          cases hm : (pruned_window rl.request_times now).min? with
          | none => exact absurd (List.min?_eq_none_iff.mp hm) hne
          | some o => exact ⟨o, rfl⟩
        rw [wait_if_needed_step fuel rl now oldest hdaily hfull hmin]
        have hdec := pruned_after_sleep_lt rl.request_times now oldest hmin
        exact wait_if_needed_resolves fuel
          { rl with request_times := pruned_window rl.request_times now }
          (now + rpm_wait_time now oldest) hrpm
          (by
            show (pruned_window (pruned_window rl.request_times now)
              (now + rpm_wait_time now oldest)).length < fuel
            omega)

end RateLimiter

namespace RateLimiter

theorem wait_one_sleep (md dc : Nat) (qf : Option (Nat × Nat)) (t1 t2 t3 now : Int)
    (hdc : dc < md) (h12 : t1 ≤ t2) (h23 : t2 ≤ t3) (hfresh : now - t1 < 60) :
    (can_make_request
        { max_rpm := 3, max_daily := md, request_times := [t1, t2, t3],
          daily_count := dc, quota_file := qf } now).1 = false ∧
    (wait_if_needed 4
        { max_rpm := 3, max_daily := md, request_times := [t1, t2, t3],
          daily_count := dc, quota_file := qf } now).2.2 = rpm_wait_time now t1 := by
  set s : State :=
    { max_rpm := 3, max_daily := md, request_times := [t1, t2, t3],
      daily_count := dc, quota_file := qf } with hs
  have hpw : pruned_window [t1, t2, t3] now = [t1, t2, t3] := by
    have e1 : decide (now - t1 < 60) = true := decide_eq_true hfresh
    have e2 : decide (now - t2 < 60) = true := decide_eq_true (by omega)
    have e3 : decide (now - t3 < 60) = true := decide_eq_true (by omega)
    simp [pruned_window, List.filter_cons, e1, e2, e3]
  have hmin3 : ([t1, t2, t3] : List Int).min? = some t1 := by
    rw [List.min?_cons']
    simp [List.foldl, min_eq_left h12, min_eq_left (le_trans h12 h23)]
  have hd : ¬ s.max_daily ≤ s.daily_count := by
    show ¬ md ≤ dc
    omega
  have hspw : pruned_window s.request_times now = [t1, t2, t3] := by
    rw [show s.request_times = [t1, t2, t3] from rfl, hpw]
  have hfull : s.max_rpm ≤ (pruned_window s.request_times now).length := by
    rw [hspw]
    show (3 : Nat) ≤ 3
    omega
  have hminpw : (pruned_window s.request_times now).min? = some t1 := by
    rw [hspw]
    exact hmin3
  have hcan : (can_make_request s now).1 = false := by
    cases hc : (can_make_request s now).1
    · rfl
    · have hlt := ((can_make_request_state s now hd).2).mp hc
      rw [hspw, hs] at hlt
      simp at hlt
  refine ⟨hcan, ?_⟩
  set s2 : State := { s with request_times := pruned_window s.request_times now } with hs2
  have hs2times : s2.request_times = [t1, t2, t3] := hspw
  have hp1 : decide (now + rpm_wait_time now t1 - t1 < 60) = false := by
    rw [decide_eq_false_iff_not, rpm_wait_time]
    omega
  have hdrop : pruned_window [t1, t2, t3] (now + rpm_wait_time now t1) =
      List.filter (fun t => decide (now + rpm_wait_time now t1 - t < 60)) [t2, t3] := by
    show List.filter _ (t1 :: [t2, t3]) = _
    exact List.filter_cons_of_neg (by simp [hp1])
  have hlen2 : (pruned_window s2.request_times (now + rpm_wait_time now t1)).length <
      s2.max_rpm := by
    rw [hs2times, hdrop]
    have := List.length_filter_le
      (fun t => decide (now + rpm_wait_time now t1 - t < 60)) [t2, t3]
    simp only [List.length_cons, List.length_nil] at this
    show _ < 3
    omega
  have hd2 : ¬ s2.max_daily ≤ s2.daily_count := hd
  have hcan2 : (can_make_request s2 (now + rpm_wait_time now t1)).1 = true :=
    ((can_make_request_state s2 (now + rpm_wait_time now t1) hd2).2).mpr hlen2
  have hwait3 : wait_if_needed 3 s2 (now + rpm_wait_time now t1) =
      ((can_make_request s2 (now + rpm_wait_time now t1)).2, now + rpm_wait_time now t1, 0) := by
    rw [show (3 : Nat) = 2 + 1 from rfl]
    exact wait_if_needed_allowed 2 s2 _ hcan2
  rw [show (4 : Nat) = 3 + 1 from rfl,
    wait_if_needed_step 3 s now t1 (by show dc < md; omega) hfull hminpw]
  show rpm_wait_time now t1 + (wait_if_needed 3 s2 (now + rpm_wait_time now t1)).2.2 =
    rpm_wait_time now t1
  rw [hwait3]
  simp

/-- C5: the quota wait terminates for every limiter state (fuel
`request_times.length + 1` suffices: each sleep strictly shrinks the next
window, and the loop exits either because a request is allowed or because the
daily cap is exhausted); when the daily cap is reached it returns immediately
without sleeping; while the per-minute window is full each iteration sleeps
exactly `60 - (now - oldest_in_window) + 1` and rechecks; and with
`max_rpm = 3`, after three recorded requests a fourth `can_make_request` is
false immediately and the wait blocks for a total duration strictly positive
and at most 61 time units. -/
theorem wait_if_needed_spec (rl : State) (now t1 t2 t3 : Int) (today : Nat)
    (hrpm : rl.max_rpm = 3) (hwin : rl.request_times = [])
    (hdaily3 : rl.daily_count + 3 < rl.max_daily)
    (h12 : t1 ≤ t2) (h23 : t2 ≤ t3) (h3n : t3 ≤ now) (hfresh : now - t1 < 60) :
    (∀ (q : State) (m : Int) (f : Nat), 1 ≤ q.max_rpm →
      (pruned_window q.request_times m).length < f →
      ((can_make_request (wait_if_needed f q m).1 (wait_if_needed f q m).2.1).1 = true ∨
        (wait_if_needed f q m).1.max_daily ≤ (wait_if_needed f q m).1.daily_count)) ∧
    (∀ (q : State) (m : Int) (f : Nat), q.max_daily ≤ q.daily_count →
      wait_if_needed (f + 1) q m = (q, m, 0)) ∧
    (∀ (q : State) (m oldest : Int) (f : Nat),
      q.daily_count < q.max_daily →
      q.max_rpm ≤ (pruned_window q.request_times m).length →
      (pruned_window q.request_times m).min? = some oldest →
      (wait_if_needed (f + 1) q m).2.2 =
        rpm_wait_time m oldest +
          (wait_if_needed f { q with request_times := pruned_window q.request_times m }
            (m + rpm_wait_time m oldest)).2.2) ∧
    ((can_make_request
        (record_request (record_request (record_request rl t1 today) t2 today) t3 today)
        now).1 = false ∧
      0 < (wait_if_needed 4
        (record_request (record_request (record_request rl t1 today) t2 today) t3 today)
        now).2.2 ∧
      (wait_if_needed 4
        (record_request (record_request (record_request rl t1 today) t2 today) t3 today)
        now).2.2 ≤ 61) := by
  refine ⟨fun q m f h1 h2 => wait_if_needed_resolves f q m h1 h2,
    fun q m f h => wait_if_needed_daily f q m h,
    fun q m oldest f h1 h2 h3 => by rw [wait_if_needed_step f q m oldest h1 h2 h3],
    ?_⟩
  have hr : record_request (record_request (record_request rl t1 today) t2 today) t3 today =
      { max_rpm := rl.max_rpm, max_daily := rl.max_daily, request_times := [t1, t2, t3],
        daily_count := rl.daily_count + 3,
        quota_file := some (today, rl.daily_count + 3) } := by
    simp [record_request, save_quota, hwin]
  rw [hr, hrpm]
  have h := wait_one_sleep rl.max_daily (rl.daily_count + 3)
    (some (today, rl.daily_count + 3)) t1 t2 t3 now (by omega) h12 h23 hfresh
  refine ⟨h.1, ?_, ?_⟩
  · rw [h.2, rpm_wait_time]
    omega
  · rw [h.2, rpm_wait_time]
    omega

theorem wait_if_needed_spec_witness :
    (can_make_request
        (record_request (record_request (record_request
          { max_rpm := 3, max_daily := 15, request_times := [],
            daily_count := 0, quota_file := none } 0 7) 1 7) 2 7)
        2).1 = false ∧
    0 < (wait_if_needed 4
        (record_request (record_request (record_request
          { max_rpm := 3, max_daily := 15, request_times := [],
            daily_count := 0, quota_file := none } 0 7) 1 7) 2 7)
        2).2.2 ∧
    (wait_if_needed 4
        (record_request (record_request (record_request
          { max_rpm := 3, max_daily := 15, request_times := [],
            daily_count := 0, quota_file := none } 0 7) 1 7) 2 7)
        2).2.2 ≤ 61 := by
  have h := wait_if_needed_spec
    { max_rpm := 3, max_daily := 15, request_times := [],
      daily_count := 0, quota_file := none }
    2 0 1 2 7 rfl rfl (by decide) (by decide) (by decide) (by decide) (by decide)
  exact h.2.2.2

end RateLimiter

namespace RateLimiter

/-- Fold of `record_request` over a sequence of instants, all recorded on the
same calendar date. -/
def apply_records (rl : State) (ts : List Int) (today : Nat) : State :=
  ts.foldl (fun r t => record_request r t today) rl

/-- Synchronisation invariant of the quota file: it holds today's date and the
in-memory daily count. -/
def file_in_sync (rl : State) (today : Nat) : Prop :=
  rl.quota_file = some (today, rl.daily_count)

theorem init_file_in_sync (mr md : Nat) (file : Option (Nat × Nat)) (today : Nat) :
    file_in_sync (init mr md file today) today := by
  unfold init load_quota save_quota file_in_sync
  cases file with
  | none => simp
  | some p =>
    rcases p with ⟨d, c⟩
    by_cases h : d = today <;> simp [h]

theorem record_file_in_sync (rl : State) (now : Int) (today : Nat) :
    file_in_sync (record_request rl now today) today := rfl

theorem apply_records_in_sync (today : Nat) :
    ∀ (ts : List Int) (rl : State), file_in_sync rl today →
      file_in_sync (apply_records rl ts today) today
  | [], _, h => h
  | t :: ts, rl, _ =>
    apply_records_in_sync today ts (record_request rl t today)
      (record_file_in_sync rl t today)

theorem apply_records_fields (today : Nat) :
    ∀ (ts : List Int) (rl : State),
      (apply_records rl ts today).daily_count = rl.daily_count + ts.length ∧
      (apply_records rl ts today).max_daily = rl.max_daily
  | [], rl => by simp [apply_records]
  | t :: ts, rl => by
    have ih := apply_records_fields today ts (record_request rl t today)
    refine ⟨?_, ?_⟩
    · rw [show apply_records rl (t :: ts) today =
        apply_records (record_request rl t today) ts today from rfl, ih.1]
      simp [record_request, save_quota]
      omega
    · rw [show apply_records rl (t :: ts) today =
        apply_records (record_request rl t today) ts today from rfl, ih.2]
      rfl

theorem init_fields (mr md : Nat) (file : Option (Nat × Nat)) (today : Nat) :
    (init mr md file today).max_daily = md ∧ (init mr md file today).max_rpm = mr := by
  unfold init load_quota save_quota
  cases file with
  | none => simp
  | some p =>
    rcases p with ⟨d, c⟩
    by_cases h : d = today <;> simp [h]

theorem init_same_day_count (mr md c today : Nat) :
    (init mr md (some (today, c)) today).daily_count = c := by
  simp [init, load_quota]

theorem init_other_day_count (mr md c d today : Nat) (h : d ≠ today) :
    (init mr md (some (d, c)) today).daily_count = 0 := by
  simp [init, load_quota, save_quota, h]

/-- C4: quota state round-trips through the persisted file: after
construction followed by any sequence of recorded requests, the file holds
today's date and the daily count; reconstructing the limiter from the file on
the same date yields the same daily count, and on a different (later) date
yields zero; the file is rewritten by every recorded request; and with a daily
cap of 15, after 15 recorded requests the remaining quota is 0 and
`can_make_request` is false both before and after reconstruction. -/
theorem quota_round_trip (mr md today later : Nat) (file : Option (Nat × Nat))
    (ts : List Int) (now : Int) (hlater : later ≠ today) :
    file_in_sync (apply_records (init mr md file today) ts today) today ∧
    (init mr md (apply_records (init mr md file today) ts today).quota_file
        today).daily_count =
      (apply_records (init mr md file today) ts today).daily_count ∧
    (init mr md (apply_records (init mr md file today) ts today).quota_file
        later).daily_count = 0 ∧
    (∀ (q : State) (n : Int) (d : Nat),
      (record_request q n d).quota_file = some (d, q.daily_count + 1)) ∧
    (md = 15 → (init mr md file today).daily_count = 0 → ts.length = 15 →
      get_remaining_quota (apply_records (init mr md file today) ts today) = 0 ∧
      (can_make_request (apply_records (init mr md file today) ts today) now).1 = false ∧
      get_remaining_quota (init mr md
        (apply_records (init mr md file today) ts today).quota_file today) = 0 ∧
      (can_make_request (init mr md
        (apply_records (init mr md file today) ts today).quota_file today) now).1 = false) := by
  have hsync : file_in_sync (apply_records (init mr md file today) ts today) today :=
    apply_records_in_sync today ts _ (init_file_in_sync mr md file today)
  refine ⟨hsync, ?_, ?_, ?_, ?_⟩
  · rw [hsync]
    exact init_same_day_count mr md _ today
  · rw [hsync]
    exact init_other_day_count mr md _ today later (Ne.symm hlater)
  · intro q n d
    rfl
  · intro hmd hzero hlen
    have hcount : (apply_records (init mr md file today) ts today).daily_count = 15 := by
      rw [(apply_records_fields today ts (init mr md file today)).1, hzero, hlen]
    have hmax : (apply_records (init mr md file today) ts today).max_daily = 15 := by
      rw [(apply_records_fields today ts (init mr md file today)).2,
        (init_fields mr md file today).1, hmd]
    refine ⟨?_, ?_, ?_, ?_⟩
    · rw [get_remaining_quota, hcount, hmax]
    · simp [can_make_request, hcount, hmax]
    · rw [get_remaining_quota, hsync, init_same_day_count mr md _ today, hcount,
        (init_fields mr md _ today).1, hmd]
    · have h1 : (init mr md
          (apply_records (init mr md file today) ts today).quota_file today).daily_count = 15 := by
        rw [hsync, init_same_day_count mr md _ today, hcount]
      have h2 : (init mr md
          (apply_records (init mr md file today) ts today).quota_file today).max_daily = 15 := by
        rw [(init_fields mr md _ today).1, hmd]
      simp [can_make_request, h1, h2]

theorem quota_round_trip_witness :
    file_in_sync
      (apply_records (init 3 15 none 0) [1, 2, 3, 4, 5, 6, 7, 8, 9, 10, 11, 12, 13, 14, 15] 0)
      0 ∧
    get_remaining_quota
      (apply_records (init 3 15 none 0) [1, 2, 3, 4, 5, 6, 7, 8, 9, 10, 11, 12, 13, 14, 15] 0)
      = 0 ∧
    (can_make_request
      (init 3 15
        (apply_records (init 3 15 none 0)
          [1, 2, 3, 4, 5, 6, 7, 8, 9, 10, 11, 12, 13, 14, 15] 0).quota_file 0)
      100).1 = false := by
  have h := quota_round_trip 3 15 0 1 none
    [1, 2, 3, 4, 5, 6, 7, 8, 9, 10, 11, 12, 13, 14, 15] 100 (by decide)
  have hinst := h.2.2.2.2 rfl (by decide) rfl
  exact ⟨h.1, hinst.1, hinst.2.2.2⟩

/-- C6 counterexample: within a single process lifetime that spans a calendar
date change, `record_request` performs no date check. A limiter loaded on day
0 with a persisted count of 7 whose next request is recorded when the current
date is day 1 ends with daily count 8 — not 1 as the claim requires — and the
stale count is persisted under the new date. -/
theorem record_request_no_reset_on_date_change :
    (record_request (init 3 15 (some (0, 7)) 0) 5 1).daily_count = 8 ∧
    (record_request (init 3 15 (some (0, 7)) 0) 5 1).quota_file = some (1, 8) ∧
    ¬ (record_request (init 3 15 (some (0, 7)) 0) 5 1).daily_count = 1 := by
  decide

/-- C6 amended: the daily counter is reset to zero and persisted at load time
(limiter construction), not at `record_request` time: when the persisted date
differs from the current date at load time the counter is reset to zero and
persisted before any increment, so the first `record_request` after such a
load leaves the daily count at 1; `record_request` itself performs no date
check. -/
theorem record_request_first_of_day (mr md d c today : Nat) (now : Int)
    (hnew : d ≠ today) :
    (init mr md (some (d, c)) today).daily_count = 0 ∧
    (init mr md (some (d, c)) today).quota_file = some (today, 0) ∧
    (record_request (init mr md (some (d, c)) today) now today).daily_count = 1 ∧
    (record_request (init mr md (some (d, c)) today) now today).quota_file =
      some (today, 1) := by
  refine ⟨init_other_day_count mr md c d today hnew, ?_, ?_, ?_⟩
  · simp [init, load_quota, save_quota, hnew]
  · simp [record_request, save_quota, init_other_day_count mr md c d today hnew]
  · rw [record_file_in_sync (init mr md (some (d, c)) today) now today]
    simp [record_request, save_quota, init_other_day_count mr md c d today hnew]

theorem record_request_first_of_day_witness :
    (init 3 15 (some (0, 7)) 1).daily_count = 0 ∧
    (init 3 15 (some (0, 7)) 1).quota_file = some (1, 0) ∧
    (record_request (init 3 15 (some (0, 7)) 1) 5 1).daily_count = 1 ∧
    (record_request (init 3 15 (some (0, 7)) 1) 5 1).quota_file = some (1, 1) :=
  record_request_first_of_day 3 15 0 7 1 5 (by decide)

end RateLimiter

namespace Summarizer

/-- Result of the per-article enrichment calls (English summary plus the two
Chinese translations) produced by the Gemini API on the success path of
`Summarizer.summarize_articles`. -/
structure Enriched where
  summary : String
  title_zh : String
  summary_zh : String

/-- Model of `Summarizer._create_fallback_text`: use the description when it
is non-empty and longer than 50 characters (truncated to 500 with an ellipsis
marker), otherwise just the title. -/
def create_fallback_text (a : Article) : String :=
  if a.description ≠ "" ∧ 50 < a.description.length then
    let desc := a.description.take 500
    let desc := if 500 < a.description.length then desc ++ "..." else desc
    a.title ++ "\n\n" ++ desc
  else a.title

/-- Model of `Summarizer._create_fallback_summary`: set the article's summary
to the fallback text (the other fields are untouched). -/
def create_fallback_summary (a : Article) : Article :=
  { a with summary := create_fallback_text a }

/-- Repeatedly recorded API requests made during one article's enrichment
(`RateLimiter.record_request` runs once per successful Gemini call). -/
def record_calls : Nat → RateLimiter.State → Int → Nat → RateLimiter.State
  | 0, rl, _, _ => rl
  | k + 1, rl, now, today => record_calls k (RateLimiter.record_request rl now today) now today

/-- One iteration of the loop of `Summarizer.summarize_articles` for article
number `i`. The external API is abstracted as `oracle`: `Except.ok (e, k)`
means the enrichment calls succeeded with result `e` after recording `k`
requests; `Except.error k` means an exception was raised after recording `k`
requests. When `can_make_request` is false, or on an exception, the article
receives the fallback summary and empty translations and stays in the result. -/
def process_article (oracle : Nat → Article → Except Nat (Enriched × Nat))
    (now : Int) (today : Nat) (i : Nat) (rl : RateLimiter.State) (a : Article) :
    Article × RateLimiter.State :=
  let c := RateLimiter.can_make_request rl now
  if c.1 = false then
    ({ a with summary := create_fallback_text a, title_zh := "", summary_zh := "" }, c.2)
  else
    match oracle i a with
    | Except.ok (e, k) =>
        ({ a with summary := e.summary, title_zh := e.title_zh, summary_zh := e.summary_zh },
          record_calls k c.2 now today)
    | Except.error k =>
        ({ a with summary := create_fallback_text a, title_zh := "", summary_zh := "" },
          record_calls k c.2 now today)

/-- The `for i, article in enumerate(articles)` loop of
`Summarizer.summarize_articles`: every iteration appends exactly one article
to `results`. -/
def summarize_loop (oracle : Nat → Article → Except Nat (Enriched × Nat))
    (now : Int) (today : Nat) :
    Nat → RateLimiter.State → List Article → List Article × RateLimiter.State
  | _, rl, [] => ([], rl)
  | i, rl, a :: rest =>
    let p := process_article oracle now today i rl a
    let r := summarize_loop oracle now today (i + 1) p.2 rest
    (p.1 :: r.1, r.2)

/-- Model of `Summarizer.summarize_articles`: when summarisation is disabled
or the daily quota is already exhausted, every article receives the fallback
summary up front; otherwise the per-article loop runs. -/
def summarize_articles (enabled : Bool)
    (oracle : Nat → Article → Except Nat (Enriched × Nat))
    (now : Int) (today : Nat) (rl : RateLimiter.State) (articles : List Article) :
    List Article × RateLimiter.State :=
  if enabled = false then (articles.map create_fallback_summary, rl)
  else if RateLimiter.get_remaining_quota rl = 0 then
    (articles.map create_fallback_summary, rl)
  else summarize_loop oracle now today 0 rl articles

/-- Identity fields of an article: everything except the summary fields that
enrichment may rewrite. -/
def article_core (a : Article) :
    String × String × Option Int × String × String × String × String :=
  (a.title, a.link, a.published, a.description, a.source, a.source_url, a.content)

theorem process_article_core (oracle : Nat → Article → Except Nat (Enriched × Nat))
    (now : Int) (today : Nat) (i : Nat) (rl : RateLimiter.State) (a : Article) :
    article_core (process_article oracle now today i rl a).1 = article_core a := by
  unfold process_article
  by_cases hc : (RateLimiter.can_make_request rl now).1 = false
  · simp [hc, article_core]
  · simp only [hc, Bool.false_eq_true, if_false, eq_self_iff_true, if_neg]
    cases oracle i a with
    | ok ek => rcases ek with ⟨e, k⟩; simp [article_core]
    | error k => simp [article_core]

theorem summarize_loop_shape (oracle : Nat → Article → Except Nat (Enriched × Nat))
    (now : Int) (today : Nat) :
    ∀ (articles : List Article) (i : Nat) (rl : RateLimiter.State),
      (summarize_loop oracle now today i rl articles).1.length = articles.length ∧
      (summarize_loop oracle now today i rl articles).1.map article_core =
        articles.map article_core
  | [], i, rl => by simp [summarize_loop]
  | a :: rest, i, rl => by
    have ih := summarize_loop_shape oracle now today rest (i + 1)
      (process_article oracle now today i rl a).2
    constructor
    · show ((process_article oracle now today i rl a).1 ::
        (summarize_loop oracle now today (i + 1) _ rest).1).length = rest.length + 1
      simp [ih.1]
    · show article_core (process_article oracle now today i rl a).1 ::
        (summarize_loop oracle now today (i + 1) _ rest).1.map article_core =
        article_core a :: rest.map article_core
      rw [ih.2, process_article_core]

/-- C9: `summarize_articles` returns exactly one output article per input
article, in input order, with all identity fields preserved, regardless of
whether summarisation is disabled, the quota is exhausted up front, an
individual enrichment call raises, or the quota runs out mid-loop; an article
whose enrichment fails or whose turn finds the quota exhausted receives the
fallback summary and is kept in the result. -/
theorem summarize_articles_total (enabled : Bool)
    (oracle : Nat → Article → Except Nat (Enriched × Nat))
    (now : Int) (today : Nat) (rl : RateLimiter.State) (articles : List Article) :
    (summarize_articles enabled oracle now today rl articles).1.length = articles.length ∧
    (summarize_articles enabled oracle now today rl articles).1.map article_core =
      articles.map article_core ∧
    (∀ (i : Nat) (q : RateLimiter.State) (a : Article),
      ((RateLimiter.can_make_request q now).1 = false →
        (process_article oracle now today i q a).1.summary = create_fallback_text a) ∧
      (∀ k, (RateLimiter.can_make_request q now).1 = true → oracle i a = Except.error k →
        (process_article oracle now today i q a).1.summary = create_fallback_text a)) := by
  refine ⟨?_, ?_, ?_⟩
  · unfold summarize_articles
    by_cases he : enabled = false
    · rw [if_pos he]
      simp
    · rw [if_neg he]
      by_cases hq : RateLimiter.get_remaining_quota rl = 0
      · rw [if_pos hq]
        simp
      · rw [if_neg hq]
        exact (summarize_loop_shape oracle now today articles 0 rl).1
  · unfold summarize_articles
    by_cases he : enabled = false
    · rw [if_pos he]
      show List.map article_core (List.map create_fallback_summary articles) =
        List.map article_core articles
      rw [List.map_map]
      apply List.map_congr_left
      intro a _
      rfl
    · rw [if_neg he]
      by_cases hq : RateLimiter.get_remaining_quota rl = 0
      · rw [if_pos hq]
        show List.map article_core (List.map create_fallback_summary articles) =
          List.map article_core articles
        rw [List.map_map]
        apply List.map_congr_left
        intro a _
        rfl
      · rw [if_neg hq]
        exact (summarize_loop_shape oracle now today articles 0 rl).2
  · intro i q a
    constructor
    · intro hc
      simp [process_article, hc]
    · intro k hc herr
      unfold process_article
      simp [hc, herr]

theorem summarize_articles_total_witness :
    (summarize_articles true (fun _ _ => Except.error 0) 0 0
      { max_rpm := 3, max_daily := 15, request_times := [],
        daily_count := 0, quota_file := none }
      [Storage.sampleArticle]).1.length = 1 ∧
    (summarize_articles true (fun _ _ => Except.error 0) 0 0
      { max_rpm := 3, max_daily := 15, request_times := [],
        daily_count := 0, quota_file := none }
      [Storage.sampleArticle]).1.map article_core =
      [Storage.sampleArticle].map article_core := by
  have h := summarize_articles_total true (fun _ _ => Except.error 0) 0 0
    { max_rpm := 3, max_daily := 15, request_times := [],
      daily_count := 0, quota_file := none }
    [Storage.sampleArticle]
  exact ⟨h.1, h.2.1⟩

end Summarizer
